import Mathlib

/-!
Verification of the fetch-parse-dedup pipeline of the Amazon-style scraper
(`src/app.py`).  The Python source is shallowly embedded: pure helpers become
Lean functions on `List Char`/`String`; the parsed HTML soup becomes the
`Node`/`NodeList` tree; the bounded `while page <= max_pages` loop becomes a
fuel-indexed recursion whose fuel is the number of remaining pages; `requests`
is abstracted as a function from page numbers to fetch outcomes.  Python
`float` values are idealised as exact rationals (`mkRat`) extended with
infinities and NaN; `None`/empty-string truthiness is modelled explicitly.
-/

/-! ## Python character / string primitives -/

-- Python `str.isspace` characters relevant to `str.split()` / `str.strip()`.
def pyIsSpace (c : Char) : Bool :=
  c = ' ' || c = '\t' || c = '\n' || c = '\x0d' || c = '\x0b' || c = '\x0c'

-- Python `str.strip()` (no argument): drop whitespace at both ends.
def pyStripList (l : List Char) : List Char :=
  ((l.dropWhile pyIsSpace).reverse.dropWhile pyIsSpace).reverse

def pyStrip (s : String) : String :=
  (pyStripList s.toList).asString

-- `startsWith pat l` holds when `pat` is an initial segment of `l`.
def startsWith : List Char → List Char → Bool
  | [], _ => true
  | _ :: _, [] => false
  | p :: ps, c :: cs => p = c && startsWith ps cs

-- `containsSub needle hay`: Python `needle in hay` on strings.
def containsSub (needle : List Char) : List Char → Bool
  | [] => needle.isEmpty
  | c :: cs => startsWith needle (c :: cs) || containsSub needle cs

-- Python `str.replace(pat, "")`: delete every occurrence of `pat`, scanning
-- left to right without rescanning produced text.  The structural fuel is the
-- length of the scanned list (`removeOcc` instantiates it).
def removeOccAux (pat : List Char) : Nat → List Char → List Char
  | _, [] => []
  | 0, s => s
  | fuel + 1, c :: cs =>
    if !pat.isEmpty && startsWith pat (c :: cs) then
      removeOccAux pat fuel (cs.drop (pat.length - 1))
    else
      c :: removeOccAux pat fuel cs

def removeOcc (pat s : List Char) : List Char :=
  removeOccAux pat s.length s

-- Python `str.split()` (no argument): split on runs of whitespace, dropping
-- empty tokens.  Fuel = length of the remaining list.
def pySplitAux : Nat → List Char → List (List Char)
  | _, [] => []
  | 0, _ => []
  | fuel + 1, c :: cs =>
    if pyIsSpace c then pySplitAux fuel cs
    else
      (c :: cs.takeWhile (fun d => !pyIsSpace d)) ::
        pySplitAux fuel (cs.dropWhile (fun d => !pyIsSpace d))

def pySplit (l : List Char) : List (List Char) :=
  pySplitAux l.length l

/-! ## Python `float(...)` on strings, idealised over exact rationals -/

-- A Python float value: a finite (exact) rational, a signed infinity, or NaN.
inductive PyVal where
  | finite (q : ℚ)
  | inf (neg : Bool)
  | nan
deriving DecidableEq, Repr

def natOfDigits (ds : List Char) : Nat :=
  ds.foldl (fun a c => a * 10 + (c.toNat - '0'.toNat)) 0

-- CPython float syntax allows `_` only directly between two digits.
def underscoresOkAux : Option Char → List Char → Bool
  | _, [] => true
  | prev, c :: rest =>
    if c = '_' then
      (prev.any Char.isDigit && rest.head?.any Char.isDigit) && underscoresOkAux (some c) rest
    else underscoresOkAux (some c) rest

def underscoresOk (l : List Char) : Bool :=
  underscoresOkAux none l

-- Leading sign of a float literal: `(negative?, rest)`.
def splitSign (l : List Char) : Bool × List Char :=
  if l.head? = some '+' then (false, l.tail)
  else if l.head? = some '-' then (true, l.tail)
  else (false, l)

-- Mantissa `digits [. digits]` with at least one digit overall; returns the
-- integer-part and fraction-part digit lists.
def parseMantissa (s : List Char) : Option (List Char × List Char) :=
  let ip := s.takeWhile Char.isDigit
  match s.dropWhile Char.isDigit with
  | [] => if ip.isEmpty then none else some (ip, [])
  | '.' :: fp =>
    if fp.all Char.isDigit && !(ip.isEmpty && fp.isEmpty) then some (ip, fp) else none
  | _ => none

-- Exponent part after `e`/`E`: `[sign] digits`, nonempty.
def parseExpPart (l : List Char) : Option Int :=
  match l with
  | '+' :: ds => if !ds.isEmpty && ds.all Char.isDigit then some ((natOfDigits ds : Nat) : Int) else none
  | '-' :: ds => if !ds.isEmpty && ds.all Char.isDigit then some (-((natOfDigits ds : Nat) : Int)) else none
  | ds => if !ds.isEmpty && ds.all Char.isDigit then some ((natOfDigits ds : Nat) : Int) else none

-- Exact value of `[sign] ip . fp e z`, assembled as a single `mkRat` so that
-- concrete instances evaluate inside the kernel.
def decValue (neg : Bool) (ip fp : List Char) (z : Int) : ℚ :=
  mkRat ((if neg then -1 else 1) * ((natOfDigits ip * 10 ^ fp.length + natOfDigits fp : Nat) : Int) *
      ((10 : Int) ^ z.toNat))
    (10 ^ fp.length * 10 ^ (-z).toNat)

def expStop (c : Char) : Bool :=
  !(c = 'e' || c = 'E')

-- Python `float(s)` for a string `s`: `none` models `ValueError`.
def pyFloat? (s : List Char) : Option PyVal :=
  let t := pyStripList s
  if t.isEmpty then none
  else if !underscoresOk t then none
  else
    let p := splitSign (t.filter (fun c => !(c = '_')))
    let low := p.2.map Char.toLower
    if low = "inf".toList || low = "infinity".toList then some (.inf p.1)
    else if low = "nan".toList then some .nan
    else
      match parseMantissa (p.2.takeWhile expStop), p.2.dropWhile expStop with
      | some ds, [] => some (.finite (decValue p.1 ds.1 ds.2 0))
      | some ds, _ :: ex =>
        match parseExpPart ex with
        | some z => some (.finite (decValue p.1 ds.1 ds.2 z))
        | none => none
      | none, _ => none

/-! ## Text normalizers (`parse_price`, `parse_rating` in `app.py`) -/

-- The characters `parse_price` keeps: digits and the decimal point.
def keepChar (c : Char) : Bool :=
  c.isDigit || c = '.'

-- `parse_price` (app.py:43-58): falsy input yields `None`; commas and the
-- labels `USD`, `US$` are removed; only digits and dots are kept; the result
-- is fed to `float`, with failures mapped to `None`.
def parse_price : Option String → Option PyVal
  | none => none
  | some s =>
    if s = "" then none
    else
      let chars :=
        (removeOcc "US$".toList (removeOcc "USD".toList (removeOcc ",".toList s.toList))).filter
          keepChar
      if chars.isEmpty then none else pyFloat? chars

-- The token loop in `parse_rating`: return the first token `float` accepts.
def ratingLoop : List (List Char) → Option PyVal
  | [] => none
  | t :: ts =>
    match pyFloat? t with
    | some v => some v
    | none => ratingLoop ts

-- `parse_rating` (app.py:60-71): falsy input yields `None`; otherwise strip,
-- split on whitespace, and return the first token parsing as a float.
def parse_rating : Option String → Option PyVal
  | none => none
  | some s =>
    if s = "" then none else ratingLoop (pySplit (pyStripList s.toList))

/-! ## Parsed HTML: the BeautifulSoup tree and the operations `app.py` uses -/

mutual
inductive Node where
  | text (s : String)
  | elem (tag : String) (attrs : List (String × String)) (children : NodeList)
inductive NodeList where
  | nil
  | cons (head : Node) (tail : NodeList)
end

-- Convenience constructor for fixtures.
def nl : List Node → NodeList
  | [] => .nil
  | n :: ns => .cons n (nl ns)

-- Attribute lookup on a tag (`tag["key"]` / `tag.get("key")`).
def Node.attr? : Node → String → Option String
  | .text _, _ => none
  | .elem _ attrs _, key => (attrs.find? (fun kv => kv.1 = key)).map (·.2)

-- `tag.find(...)`: first matching element among the strict descendants, in
-- document (pre)order.
mutual
def Node.findFirst (p : Node → Bool) : Node → Option Node
  | .text _ => none
  | .elem _ _ cs => NodeList.findFirst p cs
def NodeList.findFirst (p : Node → Bool) : NodeList → Option Node
  | .nil => none
  | .cons n ns =>
    if p n then some n
    else
      match Node.findFirst p n with
      | some r => some r
      | none => NodeList.findFirst p ns
end

-- `tag.find_all(...)`: all matching strict descendants in document order.
mutual
def Node.findEvery (p : Node → Bool) : Node → List Node
  | .text _ => []
  | .elem _ _ cs => NodeList.findEvery p cs
def NodeList.findEvery (p : Node → Bool) : NodeList → List Node
  | .nil => []
  | .cons n ns =>
    (if p n then [n] else []) ++ Node.findEvery p n ++ NodeList.findEvery p ns
end

-- `tag.get_text(strip=True)`: concatenation of the stripped text fragments.
mutual
def Node.stripText : Node → String
  | .text s => pyStrip s
  | .elem _ _ cs => NodeList.stripText cs
def NodeList.stripText : NodeList → String
  | .nil => ""
  | .cons n ns => Node.stripText n ++ NodeList.stripText ns
end

-- `tag.string`: the unique text fragment of a chain of single children.
def Node.chainString : Node → Option String
  | .text s => some s
  | .elem _ _ (.cons c .nil) => Node.chainString c
  | .elem _ _ _ => none

-- `safe_text` (app.py:38-41).
def safe_text : Option Node → Option String
  | none => none
  | some n => some n.stripText

-- BeautifulSoup class matching: the searched string matches a multi-valued
-- `class` attribute when it equals one of the whitespace-split class names or
-- the space-joined class list.
def joinSpaces : List (List Char) → List Char
  | [] => []
  | [w] => w
  | w :: ws => w ++ ' ' :: joinSpaces ws

def classMatches (attrVal cls : String) : Bool :=
  let parts := pySplit attrVal.toList
  parts.contains cls.toList || joinSpaces parts = cls.toList

def Node.hasClass (n : Node) (cls : String) : Bool :=
  match n.attr? "class" with
  | some v => classMatches v cls
  | none => false

def isTag (t : String) : Node → Bool
  | .elem tag _ _ => tag = t
  | .text _ => false

def isTagClass (t cls : String) (n : Node) : Bool :=
  isTag t n && n.hasClass cls

-- `find("a", href=True)`.
def isHrefAnchor (n : Node) : Bool :=
  isTag "a" n && (n.attr? "href").isSome

-- `find(attrs={"aria-label": True})`.
def hasAriaLabel (n : Node) : Bool :=
  (n.attr? "aria-label").isSome

-- `find("span", string=lambda s: s and "by " in s.lower())`.
def isBylineSpan (n : Node) : Bool :=
  isTag "span" n &&
    match n.chainString with
    | some s => !s.isEmpty && containsSub "by ".toList (s.toList.map Char.toLower)
    | none => false

/-! ## Block locator (`find_product_blocks`, app.py:73-87) -/

def find_product_blocks (soup : Node) : List Node :=
  let b1 := soup.findEvery (fun n =>
    isTag "div" n && (n.attr? "data-component-type" == some "s-search-result"))
  if !b1.isEmpty then b1
  else
    let b2 := soup.findEvery (fun n => isTagClass "div" "a-section a-spacing-medium" n)
    if !b2.isEmpty then b2
    else soup.findEvery (fun n => isTag "div" n && !((n.attr? "data-asin").getD "").isEmpty)

/-! ## Field extractor (`extract_from_block`, app.py:89-153) -/

structure ProductRecord where
  title : Option String
  link : Option String
  price_raw : Option String
  price : Option PyVal
  rating_raw : Option String
  rating : Option PyVal
  author : Option String
deriving DecidableEq, Repr

-- Python string truthiness of an optional string.
def pyTruthy : Option String → Bool
  | none => false
  | some s => !s.isEmpty

-- Python `x or y` on optional strings.
def pyOr (a b : Option String) : Option String :=
  if pyTruthy a then a else b

-- Title: h2 span text, else h2 text; if falsy, a `a-link-normal a-text-normal`
-- anchor's text.
def extractTitle (block : Node) : Option String :=
  let t1 :=
    match block.findFirst (isTag "h2") with
    | some h2 => pyOr (safe_text (h2.findFirst (isTag "span"))) (safe_text (some h2))
    | none => none
  if pyTruthy t1 then t1
  else pyOr (safe_text (block.findFirst (isTagClass "a" "a-link-normal a-text-normal"))) t1

-- Link: `"https://www.amazon.com" + a_tag["href"]` for the first href anchor.
def extractLink (block : Node) : Option String :=
  match block.findFirst isHrefAnchor with
  | some a => some ("https://www.amazon.com" ++ (a.attr? "href").getD "")
  | none => none

-- Price: `a-price` container's `a-offscreen` span; if falsy, an `a-color-base`
-- span.
def extractPriceRaw (block : Node) : Option String :=
  let p1 :=
    match block.findFirst (isTagClass "span" "a-price") with
    | some ps => safe_text (ps.findFirst (isTagClass "span" "a-offscreen"))
    | none => none
  if pyTruthy p1 then p1
  else safe_text (block.findFirst (isTagClass "span" "a-color-base"))

-- Rating: an `a-icon-alt` span's text; otherwise the first element carrying
-- an `aria-label`, kept only when that label contains "out of 5 stars".
def extractRatingRaw (block : Node) : Option String :=
  match block.findFirst (isTagClass "span" "a-icon-alt") with
  | some rs => safe_text (some rs)
  | none =>
    match block.findFirst hasAriaLabel with
    | some aria =>
      if containsSub "out of 5 stars".toList ((aria.attr? "aria-label").getD "").toList then
        some ((aria.attr? "aria-label").getD "")
      else none
    | none => none

-- Author: byline container's inner link or text; if falsy, a span whose
-- `.string` contains "by " case-insensitively.
def extractAuthor (block : Node) : Option String :=
  let a1 :=
    match block.findFirst (isTagClass "div" "a-row a-size-base a-color-secondary") with
    | some c => pyOr (safe_text (c.findFirst (isTag "a"))) (safe_text (some c))
    | none => none
  if pyTruthy a1 then a1
  else
    match block.findFirst isBylineSpan with
    | some b => safe_text (some b)
    | none => a1

def extract_from_block (block : Node) : ProductRecord :=
  { title := extractTitle block
    link := extractLink block
    price_raw := extractPriceRaw block
    price := parse_price (extractPriceRaw block)
    rating_raw := extractRatingRaw block
    rating := parse_rating (extractRatingRaw block)
    author := extractAuthor block }

/-! ## Crawl controller (`scrape_amazon_search`, app.py:156-210)

The `while page <= max_pages` loop is translated to a recursion whose fuel is
the number of pages still allowed (`max_pages - page + 1`); the page counter is
carried alongside so the fetcher sees the same sequence of page numbers.  The
politeness `time.sleep` has no observable effect on the returned data and is
omitted.  `requests.get` plus the status check is abstracted as
`fetch : Nat → FetchOutcome`; the second component of the result counts the
fetch invocations (the `requests.get` calls). -/

inductive FetchOutcome where
  | exn
  | resp (status : Nat) (body : Node)

-- Truthiness of the Python optional `max_items` (`None` and `0` are falsy).
def miTruthy (mi : Option Nat) : Bool :=
  mi.getD 0 != 0

-- The `for b in blocks` body: skip records with falsy or already-seen titles,
-- else append and register the title; break once `max_items` is reached.
-- State: accumulated items, seen titles, count of new items from this page.
def pageLoop (maxItems : Option Nat) :
    List Node → List ProductRecord → List String → Nat →
      List ProductRecord × List String × Nat
  | [], items, seen, found => (items, seen, found)
  | b :: bs, items, seen, found =>
    match (extract_from_block b).title with
    | none => pageLoop maxItems bs items seen found
    | some t =>
      if t = "" then pageLoop maxItems bs items seen found
      else if t ∈ seen then pageLoop maxItems bs items seen found
      else if miTruthy maxItems ∧ maxItems.getD 0 ≤ (items ++ [extract_from_block b]).length then
        (items ++ [extract_from_block b], t :: seen, found + 1)
      else pageLoop maxItems bs (items ++ [extract_from_block b]) (t :: seen) (found + 1)

def crawlLoop (fetch : Nat → FetchOutcome) (maxItems : Option Nat) :
    Nat → Nat → List ProductRecord → List String → List ProductRecord × Nat
  | 0, _, items, _ => (items, 0)
  | fuel + 1, page, items, seen =>
    match fetch page with
    | .exn => (items, 1)
    | .resp status body =>
      if status ≠ 200 then (items, 1)
      else
        let r := pageLoop maxItems (find_product_blocks body) items seen 0
        if miTruthy maxItems ∧ maxItems.getD 0 ≤ r.1.length then (r.1, 1)
        else if r.2.2 = 0 then (r.1, 1)
        else
          ((crawlLoop fetch maxItems fuel (page + 1) r.1 r.2.1).1,
            (crawlLoop fetch maxItems fuel (page + 1) r.1 r.2.1).2 + 1)

-- The returned record list of one crawl run.
def scrape_amazon_search (fetch : Nat → FetchOutcome) (maxPages : Nat)
    (maxItems : Option Nat) : List ProductRecord :=
  (crawlLoop fetch maxItems maxPages 1 [] []).1

-- Number of fetch invocations performed by the same run.
def scrapeFetches (fetch : Nat → FetchOutcome) (maxPages : Nat)
    (maxItems : Option Nat) : Nat :=
  (crawlLoop fetch maxItems maxPages 1 [] []).2

/-! ## Spec-side characterizations, for refinement comparisons -/

-- The spec's description of `parsePrice`: retain only digit and decimal-point
-- characters of the input, in order, and parse the remainder as a decimal
-- number; absent on empty or unparsable remainder.
def parsePriceSpec (s : String) : Option PyVal :=
  let kept := s.toList.filter keepChar
  if kept.isEmpty then none else pyFloat? kept

-- A character allowed inside a URI scheme name (RFC 3986: ALPHA *(ALPHA /
-- DIGIT / "+" / "-" / ".")).
def isSchemeChar (c : Char) : Bool :=
  c.isAlphanum || c = '+' || c = '-' || c = '.'

-- The candidate scheme component: everything before the first ':', '/', '?'
-- or '#'.
def schemePre (l : List Char) : List Char :=
  l.takeWhile (fun c => !(c = ':' || c = '/' || c = '?' || c = '#'))

-- A reference carries a scheme when a well-formed nonempty scheme name is
-- terminated by ':' before any '/', '?' or '#'.
def hasScheme (l : List Char) : Bool :=
  !(schemePre l).isEmpty &&
    ((schemePre l).all isSchemeChar &&
      ((schemePre l).head?.any Char.isAlpha &&
        (l.drop (schemePre l).length).head? = some ':'))

-- Modelled from the spec: "first anchor with an href, resolved to an absolute
-- URL against the site's origin".  RFC 3986 §5 reference resolution against
-- the base "https://www.amazon.com" (scheme https, authority www.amazon.com,
-- empty path): a reference with its own scheme resolves to itself; a
-- protocol-relative reference ("//…") takes only the base scheme; a
-- root-relative reference ("/…") replaces the base path, giving origin+href;
-- a pure query or fragment reference attaches to the base as origin+href; any
-- other (bare) relative path is merged onto the empty base path of a URI with
-- an authority, gaining a leading slash.
def resolveAgainstOrigin (href : String) : String :=
  if hasScheme href.toList then href
  else if startsWith "//".toList href.toList then "https:" ++ href
  else if startsWith "/".toList href.toList then "https://www.amazon.com" ++ href
  else if startsWith "?".toList href.toList || startsWith "#".toList href.toList then
    "https://www.amazon.com" ++ href
  else "https://www.amazon.com/" ++ href

-- Crawl-loop invariant: accumulated titles are pairwise distinct, and every
-- accumulated record has a truthy title registered in the seen set.
def SeenInv (items : List ProductRecord) (seen : List String) : Prop :=
  (items.map ProductRecord.title).Nodup ∧
    ∀ r ∈ items, ∃ t, r.title = some t ∧ t ≠ "" ∧ t ∈ seen

/-! ## Concrete fixtures for the testable properties -/

-- A minimal search-result block carrying only a title.
def titledBlock (t : String) : Node :=
  .elem "div" [("data-component-type", "s-search-result")]
    (nl [.elem "h2" [] (nl [.elem "span" [] (nl [.text t])])])

def docOf (blocks : List Node) : Node :=
  .elem "[document]" [] (nl blocks)

-- C3 scenario: page 1 responds 200 with two fresh items, page 2 responds 503.
def blockAlpha : Node := titledBlock "Alpha"

def blockBeta : Node := titledBlock "Beta"

def fetchC3 : Nat → FetchOutcome
  | 1 => .resp 200 (docOf [blockAlpha, blockBeta])
  | 2 => .resp 503 (docOf [])
  | _ => .resp 200 (docOf [])

-- C10 scenario: one page whose titles differ only in case or in inner spacing.
def fetchC10 : Nat → FetchOutcome :=
  fun _ => .resp 200 (docOf [titledBlock "Foo", titledBlock "foo",
    titledBlock "Bar Baz", titledBlock "Bar  Baz"])

-- C1 witness fixture: a page that repeats a title.
def fetchC1W : Nat → FetchOutcome :=
  fun _ => .resp 200 (docOf [titledBlock "Dup", titledBlock "Dup", titledBlock "Other"])

-- C2 witness fixture: two items available but `max_items = 1`.
def fetchC2W : Nat → FetchOutcome :=
  fun _ => .resp 200 (docOf [titledBlock "One", titledBlock "Two"])

-- C7 counterexample: no `a-icon-alt` span; the first aria-labelled element
-- does not mention a rating, a later one does.
def blockC7 : Node :=
  .elem "div" []
    (nl [.elem "button" [("aria-label", "Add to cart")] (nl []),
      .elem "span" [("aria-label", "4.5 out of 5 stars")] (nl [])])

-- C7 witness fixture: the first aria-labelled element is the rating.
def blockC7W : Node :=
  .elem "div" [] (nl [.elem "span" [("aria-label", "4.5 out of 5 stars")] (nl [])])

-- C8 counterexample: the first anchor's href is already an absolute URL.
def blockC8 : Node :=
  .elem "div" [] (nl [.elem "a" [("href", "https://www.amazon.com/dp/B1")] (nl [])])

-- C8 counterexample companions: a bare-relative and a protocol-relative href.
def blockC8bare : Node :=
  .elem "div" [] (nl [.elem "a" [("href", "dp/B1")] (nl [])])

def blockC8proto : Node :=
  .elem "div" [] (nl [.elem "a" [("href", "//cdn.example/x")] (nl [])])

-- C8 witness fixture: a root-relative href.
def anchorC8W : Node := .elem "a" [("href", "/dp/B1")] (nl [])

def blockC8W : Node := .elem "div" [] (nl [anchorC8W])

/-! ## Helper lemmas on characters kept by `parse_price` -/

theorem keep_ne {c c0 : Char} (h : keepChar c = true) (h0 : keepChar c0 = false) : c ≠ c0 := by
  intro he
  subst he
  rw [h] at h0
  simp at h0

theorem digit_toNat_lt {c : Char} (h : c.isDigit = true) : c.toNat < 65 := by
  simp only [Char.isDigit, Bool.and_eq_true, decide_eq_true_eq] at h
  obtain ⟨_, h2⟩ := h
  have h3 := UInt32.le_def.mp h2
  simp only [BitVec.le_def] at h3
  have h57 : (57 : UInt32).toBitVec.toNat = 57 := by decide
  rw [h57] at h3
  have hc : c.toNat = c.val.toBitVec.toNat := rfl
  omega

theorem toLower_of_keep {c : Char} (h : keepChar c = true) : c.toLower = c := by
  have hlt : c.toNat < 65 := by
    have h1 : c.isDigit = true ∨ c = '.' := by simpa [keepChar] using h
    rcases h1 with h1 | h1
    · exact digit_toNat_lt h1
    · subst h1
      decide
  simp only [Char.toLower]
  rw [if_neg]
  omega

theorem keep_not_space {c : Char} (h : keepChar c = true) : pyIsSpace c = false := by
  by_contra hs
  have hs1 : pyIsSpace c = true := by revert hs; cases pyIsSpace c <;> simp
  simp only [pyIsSpace, Bool.or_eq_true, decide_eq_true_eq] at hs1
  rcases hs1 with ((((h1 | h1) | h1) | h1) | h1) | h1 <;> (subst h1; exact absurd h (by decide))

theorem dropWhile_space_of_keep {l : List Char} (h : ∀ c ∈ l, keepChar c = true) :
    l.dropWhile pyIsSpace = l := by
  cases l with
  | nil => rfl
  | cons c cs =>
    rw [List.dropWhile_cons_of_neg]
    simp [keep_not_space (h c (by simp))]

theorem pyStripList_of_keep {l : List Char} (h : ∀ c ∈ l, keepChar c = true) :
    pyStripList l = l := by
  unfold pyStripList
  rw [dropWhile_space_of_keep h]
  rw [dropWhile_space_of_keep (fun c hc => h c (List.mem_reverse.mp hc))]
  exact List.reverse_reverse l

theorem underscoresOkAux_of_keep {l : List Char} (h : ∀ c ∈ l, keepChar c = true) :
    ∀ prev, underscoresOkAux prev l = true := by
  induction l with
  | nil => intro prev; rfl
  | cons c cs ih =>
    intro prev
    have hc : c ≠ '_' := keep_ne (h c (by simp)) (by decide)
    simp only [underscoresOkAux, if_neg hc]
    exact ih (fun d hd => h d (by simp [hd])) (some c)

theorem filter_underscore_of_keep {l : List Char} (h : ∀ c ∈ l, keepChar c = true) :
    l.filter (fun c => !(c = '_')) = l := by
  apply List.filter_eq_self.mpr
  intro a ha
  simp only [Bool.not_eq_eq_eq_not, Bool.not_true, decide_eq_false_iff_not]
  exact keep_ne (h a ha) (by decide)

theorem splitSign_of_keep {l : List Char} (h : ∀ c ∈ l, keepChar c = true) :
    splitSign l = (false, l) := by
  cases l with
  | nil => rfl
  | cons c cs =>
    have hc := h c (by simp)
    rw [splitSign, if_neg, if_neg]
    · simp only [List.head?_cons, Option.some.injEq]
      exact keep_ne hc (by decide)
    · simp only [List.head?_cons, Option.some.injEq]
      exact keep_ne hc (by decide)

theorem map_toLower_of_keep {l : List Char} (h : ∀ c ∈ l, keepChar c = true) :
    l.map Char.toLower = l := by
  have h2 : l.map Char.toLower = l.map id :=
    List.map_congr_left (fun a ha => toLower_of_keep (h a ha))
  rw [h2, List.map_id]

theorem ne_of_keep_all {l w : List Char} (h : ∀ c ∈ l, keepChar c = true)
    {c0 : Char} (hc0 : keepChar c0 = false) (hw : c0 ∈ w) : l ≠ w := by
  intro he
  subst he
  exact keep_ne (h c0 hw) hc0 rfl

theorem expStop_of_keep {c : Char} (h : keepChar c = true) : expStop c = true := by
  have h1 : c ≠ 'e' := keep_ne h (by decide)
  have h2 : c ≠ 'E' := keep_ne h (by decide)
  simp [expStop, h1, h2]

-- On a nonempty all-kept-characters input, `float` reduces to the mantissa
-- grammar with no sign, no exponent, and no inf/nan alternative.
theorem pyFloat_of_keep {l : List Char} (h : ∀ c ∈ l, keepChar c = true) (hne : l ≠ []) :
    pyFloat? l = (parseMantissa l).map (fun ds => PyVal.finite (decValue false ds.1 ds.2 0)) := by
  have hempty : l.isEmpty = false := by
    cases l with
    | nil => exact absurd rfl hne
    | cons c cs => rfl
  simp only [pyFloat?, pyStripList_of_keep h, hempty, Bool.false_eq_true, if_false,
    underscoresOkAux_of_keep h none]
  rw [show underscoresOk l = true from underscoresOkAux_of_keep h none]
  simp only [Bool.not_true, Bool.false_eq_true, if_false]
  rw [filter_underscore_of_keep h, splitSign_of_keep h]
  simp only [map_toLower_of_keep h]
  rw [if_neg, if_neg]
  · rw [List.takeWhile_eq_self_iff.mpr (by simpa using fun c hc => expStop_of_keep (h c hc)),
      List.dropWhile_eq_nil_iff.mpr (by simpa using fun c hc => expStop_of_keep (h c hc))]
    cases parseMantissa l <;> rfl
  · exact ne_of_keep_all h (by decide) (by decide : 'n' ∈ "nan".toList)
  · simp only [Bool.or_eq_true, decide_eq_true_eq, not_or]
    exact ⟨ne_of_keep_all h (by decide) (by decide : 'i' ∈ "inf".toList),
      ne_of_keep_all h (by decide) (by decide : 'i' ∈ "infinity".toList)⟩

/-! ## `parse_price` agrees with the spec's digit-and-dot characterization -/

theorem startsWith_eq : ∀ (p l : List Char), startsWith p l = true → l = p ++ l.drop p.length := by
  intro p
  induction p with
  | nil => intro l _; simp
  | cons a ps ih =>
    intro l hsw
    cases l with
    | nil => simp [startsWith] at hsw
    | cons c cs =>
      simp only [startsWith, Bool.and_eq_true, decide_eq_true_eq] at hsw
      obtain ⟨h1, h2⟩ := hsw
      subst h1
      simpa using ih cs h2

theorem filter_removeOccAux (pat : List Char) (hpat : ∀ c ∈ pat, keepChar c = false) :
    ∀ fuel s, s.length ≤ fuel →
      (removeOccAux pat fuel s).filter keepChar = s.filter keepChar := by
  intro fuel
  induction fuel with
  | zero =>
    intro s hs
    cases s with
    | nil => rfl
    | cons c cs => simp at hs
  | succ fuel ih =>
    intro s hs
    cases s with
    | nil => rfl
    | cons c cs =>
      by_cases hp : (!pat.isEmpty && startsWith pat (c :: cs)) = true
      · simp only [removeOccAux, hp, if_true]
        rw [Bool.and_eq_true] at hp
        obtain ⟨hne, hsw⟩ := hp
        have hdec := startsWith_eq pat (c :: cs) hsw
        have hpatne : pat ≠ [] := by
          intro hp0
          rw [hp0] at hne
          simp at hne
        obtain ⟨k, hk⟩ : ∃ k, pat.length = k + 1 := by
          cases hp0 : pat with
          | nil => exact absurd hp0 hpatne
          | cons a ps => exact ⟨ps.length, by simp⟩
        have hdrop : (c :: cs).drop pat.length = cs.drop (pat.length - 1) := by
          rw [hk]
          simp
        have ihx := ih (cs.drop (pat.length - 1)) (by
          have h1 : (cs.drop (pat.length - 1)).length ≤ cs.length := by
            rw [List.length_drop]
            omega
          have h2 : cs.length ≤ fuel := by
            simpa using hs
          omega)
        rw [ihx]
        conv_rhs => rw [hdec, hdrop]
        rw [List.filter_append]
        rw [show List.filter keepChar pat = [] from
          List.filter_eq_nil_iff.mpr (fun a ha => by simp [hpat a ha])]
        simp
      · simp only [removeOccAux, hp, if_false]
        have ihx := ih cs (by simpa using hs)
        simp only [List.filter_cons]
        by_cases hkc : keepChar c = true
        · simp [hkc, ihx]
        · simp only [Bool.not_eq_true] at hkc
          simp [hkc, ihx]

theorem filter_removeOcc (pat : List Char) (hpat : ∀ c ∈ pat, keepChar c = false)
    (s : List Char) : (removeOcc pat s).filter keepChar = s.filter keepChar :=
  filter_removeOccAux pat hpat s.length s le_rfl

theorem parse_price_eq_spec (s : String) : parse_price (some s) = parsePriceSpec s := by
  by_cases h : s = ""
  · subst h; rfl
  · simp only [parse_price, parsePriceSpec, if_neg h]
    rw [filter_removeOcc _ (by decide), filter_removeOcc _ (by decide),
      filter_removeOcc _ (by decide)]

/-! ## `parse_rating` agrees with the spec's first-parsing-token description -/

theorem ratingLoop_eq_findSome (ts : List (List Char)) :
    ratingLoop ts = ts.findSome? pyFloat? := by
  induction ts with
  | nil => rfl
  | cons t ts ih =>
    simp only [ratingLoop, List.findSome?]
    cases pyFloat? t <;> simp [ih]

theorem decValue_nonneg (ip fp : List Char) (z : Int) : 0 ≤ decValue false ip fp z := by
  have h1 : decValue false ip fp z =
      mkRat (((natOfDigits ip * 10 ^ fp.length + natOfDigits fp : Nat) : Int) * (10 : Int) ^ z.toNat)
        (10 ^ fp.length * 10 ^ (-z).toNat) := by
    simp [decValue]
  rw [h1]
  apply Rat.mkRat_nonneg
  positivity

theorem parse_price_some_finite {s : String} {v : PyVal}
    (h : parse_price (some s) = some v) : ∃ q : ℚ, v = .finite q ∧ 0 ≤ q := by
  by_cases h0 : s = ""
  · rw [h0] at h
    simp [parse_price] at h
  · simp only [parse_price, if_neg h0] at h
    set X := (removeOcc "US$".toList
      (removeOcc "USD".toList (removeOcc ",".toList s.toList))).filter keepChar with hX
    by_cases he : X.isEmpty
    · rw [if_pos he] at h
      cases h
    · rw [if_neg he] at h
      have hkeep : ∀ c ∈ X, keepChar c = true := by
        intro c hc
        rw [hX] at hc
        exact (List.mem_filter.mp hc).2
      have hne : X ≠ [] := by
        intro h1
        rw [h1] at he
        exact he rfl
      rw [pyFloat_of_keep hkeep hne] at h
      cases hm : parseMantissa X with
      | none => rw [hm] at h; cases h
      | some ds =>
        rw [hm] at h
        have h2 : PyVal.finite (decValue false ds.1 ds.2 0) = v := by
          cases h
          rfl
        exact ⟨decValue false ds.1 ds.2 0, h2.symm, decValue_nonneg ds.1 ds.2 0⟩

/-! ## Claim theorems -/

/-- Claim C5: `parsePrice` keeps exactly the digit and decimal-point characters
of its input, in order, and parses the remainder as a decimal number,
returning absent on an empty or unparsable remainder; in particular
`parsePrice("$1,234.56") = 1234.56`, `parsePrice("") = absent`, and
`parsePrice("USD") = absent`. -/
theorem parse_price_matches_spec :
    (∀ s : String, parse_price (some s) = parsePriceSpec s) ∧
    parse_price (some "$1,234.56") = some (.finite (1234.56 : ℚ)) ∧
    parse_price (some "") = none ∧
    parse_price (some "USD") = none := by
  refine ⟨parse_price_eq_spec, ?_, by decide, by decide⟩
  have h : parse_price (some "$1,234.56") = some (.finite (mkRat 123456 100)) := by decide
  rw [h]
  have h2 : mkRat 123456 100 = (1234.56 : ℚ) := by
    rw [Rat.mkRat_eq_div]
    norm_num
  rw [h2]

/-- Claim C6: `parseRating` splits its input on whitespace and returns the
first whitespace-delimited token that parses as a number, absent when no token
does; in particular `parseRating("4.5 out of 5 stars") = 4.5` and
`parseRating("no rating") = absent`. -/
theorem parse_rating_matches_spec :
    (∀ s : String,
      parse_rating (some s) = (pySplit (pyStripList s.toList)).findSome? pyFloat?) ∧
    parse_rating (some "4.5 out of 5 stars") = some (.finite (4.5 : ℚ)) ∧
    parse_rating (some "no rating") = none := by
  refine ⟨?_, ?_, by decide⟩
  · intro s
    by_cases h : s = ""
    · subst h; rfl
    · simp only [parse_rating, if_neg h, ratingLoop_eq_findSome]
  · have h : parse_rating (some "4.5 out of 5 stars") = some (.finite (mkRat 45 10)) := by decide
    rw [h]
    have h2 : mkRat 45 10 = (4.5 : ℚ) := by
      rw [Rat.mkRat_eq_div]
      norm_num
    rw [h2]

/-- Claim C9: whenever `parsePrice` returns a number, that number is
nonnegative — minus signs are dropped together with every other non-digit,
non-dot character — and in particular `parsePrice("-$5.00") = 5.0`. -/
theorem parse_price_nonneg :
    (∀ (s : String) (v : PyVal), parse_price (some s) = some v →
      ∃ q : ℚ, v = .finite q ∧ 0 ≤ q) ∧
    parse_price (some "-$5.00") = some (.finite (5 : ℚ)) := by
  constructor
  · intro s v h
    exact parse_price_some_finite h
  · have h : parse_price (some "-$5.00") = some (.finite (mkRat 500 100)) := by decide
    rw [h]
    have h2 : mkRat 500 100 = (5 : ℚ) := by
      rw [Rat.mkRat_eq_div]
      norm_num
    rw [h2]

theorem parse_price_nonneg_witness :
    ∃ q : ℚ, PyVal.finite (5 : ℚ) = .finite q ∧ 0 ≤ q :=
  parse_price_nonneg.1 "-$5.00" (.finite (5 : ℚ)) parse_price_nonneg.2

/-- Claim C3: a fetch failure (transport exception or non-200 status) stops the
crawl immediately with the records accumulated so far, performing no further
fetches and raising nothing; concretely, with `maxPages = 3`, a 200 on page 1
yielding 2 new items followed by a non-200 on page 2 returns exactly those 2
records after exactly 2 fetch calls.  (The embedding is a total function, so
no exception can escape to the caller.) -/
theorem scrape_fetch_failure_stops :
    (∀ (fetch : Nat → FetchOutcome) (mi : Option Nat) (fuel page : Nat)
        (items : List ProductRecord) (seen : List String),
      fetch page = .exn → crawlLoop fetch mi (fuel + 1) page items seen = (items, 1)) ∧
    (∀ (fetch : Nat → FetchOutcome) (mi : Option Nat) (fuel page : Nat)
        (items : List ProductRecord) (seen : List String) (status : Nat) (body : Node),
      fetch page = .resp status body → status ≠ 200 →
      crawlLoop fetch mi (fuel + 1) page items seen = (items, 1)) ∧
    scrape_amazon_search fetchC3 3 none =
      [extract_from_block blockAlpha, extract_from_block blockBeta] ∧
    scrapeFetches fetchC3 3 none = 2 := by
  refine ⟨?_, ?_, rfl, rfl⟩
  · intro fetch mi fuel page items seen h
    simp only [crawlLoop, h]
  · intro fetch mi fuel page items seen status body h hs
    simp only [crawlLoop, h, if_pos hs]

theorem scrape_fetch_failure_stops_witness :
    crawlLoop (fun _ => FetchOutcome.exn) none 1 1 [] [] = ([], 1) :=
  scrape_fetch_failure_stops.1 (fun _ => FetchOutcome.exn) none 0 1 [] [] rfl

theorem crawlLoop_count_le (fetch : Nat → FetchOutcome) (mi : Option Nat) :
    ∀ fuel page items seen, (crawlLoop fetch mi fuel page items seen).2 ≤ fuel := by
  intro fuel
  induction fuel with
  | zero => intro page items seen; simp [crawlLoop]
  | succ fuel ih =>
    intro page items seen
    simp only [crawlLoop]
    cases hf : fetch page with
    | exn => simp
    | resp status body =>
      by_cases hs : status ≠ 200
      · simp [hs]
      · simp only [if_neg hs]
        split_ifs
        · simp
        · simp
        · have h1 := ih (page + 1)
            (pageLoop mi (find_product_blocks body) items seen 0).1
            (pageLoop mi (find_product_blocks body) items seen 0).2.1
          simpa using Nat.succ_le_succ h1

/-- Claim C4: every crawl run with `maxPages ≥ 1` terminates (the embedding is
a total function over the page budget) and performs at most `maxPages` fetch
invocations; the page counter runs `1..maxPages` with earlier exits on fetch
failure, the item cap, or an empty page. -/
theorem scrape_fetch_count_le_maxPages (fetch : Nat → FetchOutcome) (maxPages : Nat)
    (mi : Option Nat) (_h : 1 ≤ maxPages) :
    scrapeFetches fetch maxPages mi ≤ maxPages :=
  crawlLoop_count_le fetch mi maxPages 1 [] []

theorem scrape_fetch_count_le_maxPages_witness :
    scrapeFetches (fun _ => FetchOutcome.exn) 3 none ≤ 3 :=
  scrape_fetch_count_le_maxPages (fun _ => FetchOutcome.exn) 3 none (by decide)

theorem pageLoop_length_le {m : Nat} (hm : 1 ≤ m) :
    ∀ (blocks : List Node) (items : List ProductRecord) (seen : List String) (found : Nat),
      items.length < m → (pageLoop (some m) blocks items seen found).1.length ≤ m := by
  intro blocks
  induction blocks with
  | nil =>
    intro items seen found h
    simpa [pageLoop] using Nat.le_of_lt h
  | cons b bs ih =>
    intro items seen found h
    cases ht : (extract_from_block b).title with
    | none =>
      simp only [pageLoop, ht]
      exact ih items seen found h
    | some t =>
      simp only [pageLoop, ht]
      by_cases h1 : t = ""
      · rw [if_pos h1]
        exact ih items seen found h
      · rw [if_neg h1]
        by_cases h2 : t ∈ seen
        · rw [if_pos h2]
          exact ih items seen found h
        · rw [if_neg h2]
          by_cases h3 : miTruthy (some m) ∧
              (some m).getD 0 ≤ (items ++ [extract_from_block b]).length
          · rw [if_pos h3]
            show (items ++ [extract_from_block b]).length ≤ m
            simp only [List.length_append, List.length_singleton]
            omega
          · rw [if_neg h3]
            apply ih
            have htr : miTruthy (some m) = true := by
              simp only [miTruthy, Option.getD_some, bne_iff_ne, ne_eq]
              omega
            rcases not_and_or.mp h3 with h4 | h4
            · rw [htr] at h4
              simp at h4
            · simp only [Option.getD_some, List.length_append, List.length_singleton,
                not_le] at h4
              simpa using h4

theorem crawlLoop_length_le (fetch : Nat → FetchOutcome) {m : Nat} (hm : 1 ≤ m) :
    ∀ fuel page items seen, items.length < m →
      (crawlLoop fetch (some m) fuel page items seen).1.length ≤ m := by
  intro fuel
  induction fuel with
  | zero =>
    intro page items seen h
    simpa [crawlLoop] using Nat.le_of_lt h
  | succ fuel ih =>
    intro page items seen h
    simp only [crawlLoop]
    cases hf : fetch page with
    | exn => simpa using Nat.le_of_lt h
    | resp status body =>
      by_cases hs : status ≠ 200
      · simp only [if_pos hs]
        simpa using Nat.le_of_lt h
      · simp only [if_neg hs]
        have hpl := pageLoop_length_le hm (find_product_blocks body) items seen 0 h
        split_ifs with h1 h2
        · simpa using hpl
        · simpa using hpl
        · have hlt : (pageLoop (some m) (find_product_blocks body) items seen 0).1.length < m := by
            rcases not_and_or.mp h1 with h4 | h4
            · exfalso
              apply h4
              simp only [miTruthy, Option.getD_some, bne_iff_ne, ne_eq]
              omega
            · simp only [Option.getD_some, not_le] at h4
              exact h4
          simpa using ih (page + 1)
            (pageLoop (some m) (find_product_blocks body) items seen 0).1
            (pageLoop (some m) (find_product_blocks body) items seen 0).2.1 hlt

/-- Claim C2: with `maxItems = m ≥ 1`, a crawl returns at most `m` records,
and as soon as the accumulated sequence reaches `m` after processing a page,
the crawl returns that sequence having performed only that page's fetch. -/
theorem scrape_maxItems_cap (fetch : Nat → FetchOutcome) (maxPages m : Nat) (hm : 1 ≤ m) :
    (scrape_amazon_search fetch maxPages (some m)).length ≤ m ∧
    (∀ (fuel page : Nat) (items : List ProductRecord) (seen : List String) (body : Node),
      fetch page = .resp 200 body →
      m ≤ (pageLoop (some m) (find_product_blocks body) items seen 0).1.length →
      crawlLoop fetch (some m) (fuel + 1) page items seen =
        ((pageLoop (some m) (find_product_blocks body) items seen 0).1, 1)) := by
  constructor
  · exact crawlLoop_length_le fetch hm maxPages 1 [] [] (by simpa using hm)
  · intro fuel page items seen body hf hlen
    simp only [crawlLoop, hf]
    rw [if_neg (by simp)]
    rw [if_pos]
    constructor
    · simp only [miTruthy, Option.getD_some, bne_iff_ne, ne_eq]
      omega
    · simpa using hlen

theorem scrape_maxItems_cap_witness :
    (scrape_amazon_search fetchC2W 2 (some 1)).length ≤ 1 :=
  (scrape_maxItems_cap fetchC2W 2 1 (by decide)).1

theorem pageLoop_inv (mi : Option Nat) :
    ∀ (blocks : List Node) (items : List ProductRecord) (seen : List String) (found : Nat),
      SeenInv items seen →
      SeenInv (pageLoop mi blocks items seen found).1 (pageLoop mi blocks items seen found).2.1 ∧
      (∀ t ∈ seen, t ∈ (pageLoop mi blocks items seen found).2.1) := by
  intro blocks
  induction blocks with
  | nil =>
    intro items seen found h
    exact ⟨h, fun t ht => ht⟩
  | cons b bs ih =>
    intro items seen found h
    cases ht : (extract_from_block b).title with
    | none =>
      simp only [pageLoop, ht]
      exact ih items seen found h
    | some t =>
      simp only [pageLoop, ht]
      by_cases h1 : t = ""
      · rw [if_pos h1]
        exact ih items seen found h
      · rw [if_neg h1]
        by_cases h2 : t ∈ seen
        · rw [if_pos h2]
          exact ih items seen found h
        · rw [if_neg h2]
          have hinv : SeenInv (items ++ [extract_from_block b]) (t :: seen) := by
            obtain ⟨hnd, hmem⟩ := h
            constructor
            · rw [List.map_append]
              refine List.Nodup.append hnd (List.nodup_singleton _) ?_
              intro x hx hx'
              simp only [List.map_cons, List.map_nil, List.mem_singleton] at hx'
              rw [ht] at hx'
              subst hx'
              obtain ⟨r, hr, hrt⟩ := List.mem_map.mp hx
              obtain ⟨t0, ht0, _, hseen0⟩ := hmem r hr
              rw [ht0] at hrt
              have : t0 = t := by
                cases hrt
                rfl
              subst this
              exact h2 hseen0
            · intro r hr
              rcases List.mem_append.mp hr with hr | hr
              · obtain ⟨t0, ht0, hne0, hseen0⟩ := hmem r hr
                exact ⟨t0, ht0, hne0, List.mem_cons_of_mem _ hseen0⟩
              · rw [List.mem_singleton] at hr
                subst hr
                exact ⟨t, ht, h1, List.mem_cons_self _ _⟩
          by_cases h3 : miTruthy mi ∧ mi.getD 0 ≤ (items ++ [extract_from_block b]).length
          · rw [if_pos h3]
            exact ⟨hinv, fun u hu => List.mem_cons_of_mem _ hu⟩
          · rw [if_neg h3]
            obtain ⟨ha, hb⟩ := ih (items ++ [extract_from_block b]) (t :: seen) (found + 1) hinv
            exact ⟨ha, fun u hu => hb u (List.mem_cons_of_mem _ hu)⟩

theorem crawlLoop_inv (fetch : Nat → FetchOutcome) (mi : Option Nat) :
    ∀ fuel page items seen, SeenInv items seen →
      ∃ s, SeenInv (crawlLoop fetch mi fuel page items seen).1 s := by
  intro fuel
  induction fuel with
  | zero =>
    intro page items seen h
    exact ⟨seen, by simpa [crawlLoop] using h⟩
  | succ fuel ih =>
    intro page items seen h
    simp only [crawlLoop]
    cases hf : fetch page with
    | exn => exact ⟨seen, by simpa using h⟩
    | resp status body =>
      by_cases hs : status ≠ 200
      · simp only [if_pos hs]
        exact ⟨seen, by simpa using h⟩
      · simp only [if_neg hs]
        obtain ⟨hinv, _⟩ := pageLoop_inv mi (find_product_blocks body) items seen 0 h
        split_ifs
        · exact ⟨(pageLoop mi (find_product_blocks body) items seen 0).2.1, by simpa using hinv⟩
        · exact ⟨(pageLoop mi (find_product_blocks body) items seen 0).2.1, by simpa using hinv⟩
        · obtain ⟨s, hs'⟩ := ih (page + 1)
            (pageLoop mi (find_product_blocks body) items seen 0).1
            (pageLoop mi (find_product_blocks body) items seen 0).2.1 hinv
          exact ⟨s, by simpa using hs'⟩

/-- Claim C1: within one crawl run the returned records carry pairwise
distinct titles, every returned record has a non-absent, non-blank title, and
a block whose extracted title was already seen earlier in the run is discarded
(so the first occurrence wins). -/
theorem scrape_title_dedup (fetch : Nat → FetchOutcome) (maxPages : Nat) (mi : Option Nat) :
    ((scrape_amazon_search fetch maxPages mi).map ProductRecord.title).Nodup ∧
    (∀ r ∈ scrape_amazon_search fetch maxPages mi, ∃ t, r.title = some t ∧ t ≠ "") ∧
    (∀ (b : Node) (bs : List Node) (items : List ProductRecord) (seen : List String)
        (found : Nat) (t : String),
      (extract_from_block b).title = some t → t ∈ seen →
      pageLoop mi (b :: bs) items seen found = pageLoop mi bs items seen found) := by
  obtain ⟨s, hs⟩ := crawlLoop_inv fetch mi maxPages 1 [] [] ⟨List.nodup_nil, by simp⟩
  refine ⟨hs.1, ?_, ?_⟩
  · intro r hr
    obtain ⟨t, ht, hne, _⟩ := hs.2 r hr
    exact ⟨t, ht, hne⟩
  · intro b bs items seen found t ht hseen
    simp only [pageLoop, ht]
    by_cases h1 : t = ""
    · rw [if_pos h1]
    · rw [if_neg h1, if_pos hseen]

theorem scrape_title_dedup_witness :
    ((scrape_amazon_search fetchC1W 1 none).map ProductRecord.title).Nodup :=
  (scrape_title_dedup fetchC1W 1 none).1

/-- Claim C7 counterexample: in a block with no rating-icon alt-text element,
an element whose aria label contains "out of 5 stars" exists, yet `ratingRaw`
is absent, because only the first aria-labelled element is consulted. -/
theorem extract_rating_aria_counterexample :
    (blockC7.findEvery (fun n => hasAriaLabel n &&
        containsSub "out of 5 stars".toList ((n.attr? "aria-label").getD "").toList)).length = 1 ∧
    blockC7.findFirst (isTagClass "span" "a-icon-alt") = none ∧
    (extract_from_block blockC7).rating_raw = none :=
  ⟨rfl, rfl, rfl⟩

/-- Claim C7 (amended): for a block with no rating-icon alt-text element,
`ratingRaw` is determined by the *first* element carrying an aria label (in
document order): it is that label when the label contains "out of 5 stars",
and absent otherwise — even when a later element's label matches. -/
theorem extract_rating_first_aria (block : Node)
    (hicon : block.findFirst (isTagClass "span" "a-icon-alt") = none) :
    (extract_from_block block).rating_raw =
      match block.findFirst hasAriaLabel with
      | some aria =>
        if containsSub "out of 5 stars".toList ((aria.attr? "aria-label").getD "").toList then
          some ((aria.attr? "aria-label").getD "")
        else none
      | none => none := by
  show extractRatingRaw block = _
  simp only [extractRatingRaw, hicon]

theorem extract_rating_first_aria_witness :
    (extract_from_block blockC7W).rating_raw = some "4.5 out of 5 stars" :=
  (extract_rating_first_aria blockC7W rfl).trans rfl

/-- Claim C8 counterexample: the extracted link is the raw concatenation of
the origin and the first anchor's href, which differs from that href resolved
against the site's origin for an already-absolute href (where it is also not
a well-formed absolute URL) — and likewise for a bare-relative href (missing
path-merge slash) and a protocol-relative href. -/
theorem extract_link_resolution_counterexample :
    (extract_from_block blockC8).link =
      some "https://www.amazon.comhttps://www.amazon.com/dp/B1" ∧
    (extract_from_block blockC8).link ≠
      some (resolveAgainstOrigin "https://www.amazon.com/dp/B1") ∧
    (extract_from_block blockC8bare).link ≠ some (resolveAgainstOrigin "dp/B1") ∧
    (extract_from_block blockC8proto).link ≠ some (resolveAgainstOrigin "//cdn.example/x") :=
  ⟨rfl, by decide, by decide, by decide⟩

/-- Claim C8 (amended): for a block containing an anchor with an href, the
extracted link is the string concatenation of the origin
"https://www.amazon.com" with the first such anchor's href.  This coincides
with the href resolved against the site's origin exactly in the root-relative
case (href beginning "/" but not "//"); already-absolute, protocol-relative,
bare-relative and other-scheme hrefs are not resolved (see the
counterexample). -/
theorem extract_link_concat (block a : Node) (href : String)
    (ha : block.findFirst isHrefAnchor = some a) (hh : a.attr? "href" = some href) :
    (extract_from_block block).link = some ("https://www.amazon.com" ++ href) ∧
    (startsWith "/".toList href.toList = true →
      startsWith "//".toList href.toList = false →
      "https://www.amazon.com" ++ href = resolveAgainstOrigin href) := by
  constructor
  · show extractLink block = _
    simp only [extractLink, ha, hh, Option.getD_some]
  · intro h1 h2
    obtain ⟨rest, hrest⟩ : ∃ rest, href.toList = '/' :: rest := by
      cases hl : href.toList with
      | nil =>
        rw [hl] at h1
        simp [startsWith] at h1
      | cons c cs =>
        rw [hl] at h1
        simp only [startsWith, Bool.and_eq_true, decide_eq_true_eq] at h1
        exact ⟨cs, by rw [← h1.1]⟩
    have hsch : hasScheme href.toList = false := by
      rw [hrest]
      simp [hasScheme, schemePre]
    rw [resolveAgainstOrigin, if_neg (by simp only [hsch]; simp), if_neg (by simpa using h2),
      if_pos (by simpa using h1)]

theorem extract_link_concat_witness :
    (extract_from_block blockC8W).link = some ("https://www.amazon.com" ++ "/dp/B1") ∧
    "https://www.amazon.com" ++ "/dp/B1" = resolveAgainstOrigin "/dp/B1" := by
  have h := extract_link_concat blockC8W anchorC8W "/dp/B1" rfl rfl
  exact ⟨h.1, h.2 (by decide) (by decide)⟩

/-- Claim C10: title deduplication uses exact, case-sensitive string equality —
titles differing only in letter case, or only in whitespace that extraction
preserves (interior whitespace), are all retained. -/
theorem scrape_dedup_case_sensitive :
    (scrape_amazon_search fetchC10 1 none).map ProductRecord.title =
      [some "Foo", some "foo", some "Bar Baz", some "Bar  Baz"] ∧
    (scrape_amazon_search fetchC10 1 none).length = 4 :=
  ⟨rfl, rfl⟩
